import Mathlib

/-
Verification of the event-driven producer-consumer state machine in
`Instrument Control/Example/EventDrivenStateMachine.py`.

The Python module is embedded shallowly: enums become inductive types,
the `queue.Queue` instances become lists with an explicit capacity,
floating-point times and values become rationals, and the producer's
thread loop becomes an explicit step function driven by a list of
scheduler observations (perf_counter reading, wall-clock reading, and
the value the random generator would return).
-/

namespace EDSM

/-- Message passed from the producer to the consumer (`RandomValueMsg`
in the source): a wall-clock timestamp and a random value, both
modelled as rationals. -/
structure RandomValueMsg where
  timestamp : ℚ
  value : ℚ
deriving DecidableEq, Repr

/-- The three FSM states of the source's `State` enum. -/
inductive State where
  | IDLE
  | RUNNING
  | STOPPING
deriving DecidableEq, Repr

/-- The three commands of the source's `Event` enum. -/
inductive Event where
  | START
  | STOP
  | SHUTDOWN
deriving DecidableEq, Repr

/-- Embedding of `queue.Queue.put_nowait` for a queue with positive
capacity `cap` (the source constructs `queue.Queue(maxsize=64)`; in
Python a maxsize greater than zero bounds the queue): the put succeeds
exactly when the current length is strictly below the capacity, and
appends at the tail. -/
def put_nowait {α : Type} (cap : Nat) (q : List α) (x : α) : Option (List α) :=
  if q.length < cap then some (q ++ [x]) else none

/-- Embedding of `queue.Queue.get_nowait`: returns the head (oldest
element) and the rest, or nothing when the queue is empty. -/
def get_nowait {α : Type} (q : List α) : Option (α × List α) :=
  match q with
  | [] => none
  | x :: xs => some (x, xs)

/-- The producer's push with drop-oldest recovery, mirroring the
`try put_nowait / except Full: get_nowait then best-effort put_nowait`
sequence in `RandomProducer.run`. -/
def pushDropOldest {α : Type} (cap : Nat) (q : List α) (x : α) : List α :=
  match put_nowait cap q x with
  | some q1 => q1
  | none =>
    let q1 := match get_nowait q with
      | some (_, rest) => rest
      | none => q
    match put_nowait cap q1 x with
    | some q2 => q2
    | none => q1

/-- The sample period computed in `RandomProducer.__init__`:
`1.0 / max(hz, 1e-6)`. -/
def mkPeriod (hz : ℚ) : ℚ := 1 / max hz (1 / 1000000)

/-- State of a `RandomProducer`: the two `threading.Event` flags, the
sample period, the absolute next deadline (`next_tick`), and the outbox
queue together with its capacity. -/
structure RandomProducer where
  runEvent : Bool
  shutdownFlag : Bool
  period : ℚ
  nextTick : ℚ
  cap : Nat
  outbox : List RandomValueMsg
deriving DecidableEq, Repr

/-- `RandomProducer.enable`: sets the run event. -/
def RandomProducer.enable (p : RandomProducer) : RandomProducer :=
  { p with runEvent := true }

/-- `RandomProducer.disable`: clears the run event. -/
def RandomProducer.disable (p : RandomProducer) : RandomProducer :=
  { p with runEvent := false }

/-- `RandomProducer.shutdown`: sets the exit flag and also clears the
run event so production stops immediately. -/
def RandomProducer.shutdown (p : RandomProducer) : RandomProducer :=
  { p with shutdownFlag := true, runEvent := false }

/-- One scheduler observation of the producer loop: the
`time.perf_counter()` reading `now`, the `time.time()` reading `ts`
used for the message timestamp, and the value `rng.random()` would
return. -/
structure TickInput where
  now : ℚ
  ts : ℚ
  value : ℚ
deriving DecidableEq, Repr

/-- One iteration of the body of the `while` loop in
`RandomProducer.run`: when the deadline has not passed the iteration
only sleeps (no state change, nothing emitted); otherwise the deadline
advances by one period and, when the run event is set, one message is
produced and pushed with drop-oldest recovery.  Returns the updated
producer and the list of samples emitted by this iteration. -/
def RandomProducer.runStep (p : RandomProducer) (t : TickInput) :
    RandomProducer × List RandomValueMsg :=
  if t.now < p.nextTick then (p, [])
  else
    let p1 := { p with nextTick := p.nextTick + p.period }
    if p1.runEvent then
      let msg : RandomValueMsg := { timestamp := t.ts, value := t.value }
      ({ p1 with outbox := pushDropOldest p1.cap p1.outbox msg }, [msg])
    else
      (p1, [])

/-- The `while not self._shutdown.is_set()` loop of
`RandomProducer.run`, driven by a finite list of scheduler
observations: the exit flag is tested before every iteration, and once
it is set the loop exits with no further iterations. -/
def RandomProducer.run (p : RandomProducer) :
    List TickInput → RandomProducer × List RandomValueMsg
  | [] => (p, [])
  | t :: ts =>
    if p.shutdownFlag then (p, [])
    else
      let s1 := p.runStep t
      let s2 := s1.1.run ts
      (s2.1, s1.2 ++ s2.2)

/-- The `Controller` of the source: it owns the FSM state and drives
the producer's control flags. -/
structure Controller where
  producer : RandomProducer
  state : State
deriving DecidableEq, Repr

/-- `Controller.handle`, translated from the source's `if/elif`
chains: the four listed pairs act, the `STOPPING` branch does nothing,
and every other (state, event) pair falls through with no change. -/
def Controller.handle (c : Controller) (e : Event) : Controller :=
  match c.state, e with
  | State.IDLE, Event.START =>
    { producer := c.producer.enable, state := State.RUNNING }
  | State.IDLE, Event.SHUTDOWN =>
    { producer := c.producer.shutdown, state := State.STOPPING }
  | State.RUNNING, Event.STOP =>
    { producer := c.producer.disable, state := State.IDLE }
  | State.RUNNING, Event.SHUTDOWN =>
    { producer := c.producer.shutdown, state := State.STOPPING }
  | _, _ => c

/-- The initial configuration built by `RandomApp.__init__`: a fresh
producer (both flags clear, empty outbox, `next_tick` set to the
perf-counter reading `t0` taken when the thread starts) and the
controller in `IDLE`.  The source uses `hz = 20.0` and capacity 64. -/
def initController (hz t0 : ℚ) (cap : Nat) : Controller :=
  { producer :=
      { runEvent := false
        shutdownFlag := false
        period := mkPeriod hz
        nextTick := t0
        cap := cap
        outbox := [] }
    state := State.IDLE }

/-- Folding `Controller.handle` over a list of events. -/
def applyEvents (c : Controller) (evs : List Event) : Controller :=
  evs.foldl Controller.handle c

/-- The transition table of spec section 4.1, written from the spec's
words, for comparison with `Controller.handle` (claim C1). -/
def specTransition (s : State) (e : Event) : State :=
  match s, e with
  | State.IDLE, Event.START => State.RUNNING
  | State.IDLE, Event.SHUTDOWN => State.STOPPING
  | State.RUNNING, Event.STOP => State.IDLE
  | State.RUNNING, Event.SHUTDOWN => State.STOPPING
  | State.IDLE, Event.STOP => State.IDLE
  | State.RUNNING, Event.START => State.RUNNING
  | State.STOPPING, _ => State.STOPPING

/-- Modelled from the spec: the Command channel (Consumer to Worker).
This placement variant is absent from the sources (the present variant
issues commands by a direct call from the UI handlers `_on_start` and
`_on_close` to `Controller.handle`); the spec prescribes an ordinary
non-blocking put with no eviction, with a full channel reported upward
to the caller. -/
def commandPut (cap : Nat) (q : List Event) (e : Event) : Except Unit (List Event) :=
  if q.length < cap then Except.ok (q ++ [e]) else Except.error ()

/-- Consumer-side rate-estimation state of `RandomApp`: the
`_last_rx_time` option and the `_ema_rate` accumulator. -/
structure RenderState where
  lastRxTime : Option ℚ
  emaRate : ℚ
deriving DecidableEq, Repr

/-- `RandomApp._render_value` restricted to the rate-estimation update:
given the perf-counter reading `now` at receipt, updates the EMA with
`inst_rate = 1 / max(now - last, 1e-6)` and `alpha = 0.2`, or seeds the
EMA to 0 on the first received sample; then records `now` as the last
receipt time. -/
def renderValue (st : RenderState) (now : ℚ) : RenderState :=
  match st.lastRxTime with
  | some last =>
    let instRate := 1 / max (now - last) (1 / 1000000)
    let alpha : ℚ := 1 / 5
    { lastRxTime := some now
      emaRate := (1 - alpha) * st.emaRate + alpha * instRate }
  | none =>
    { lastRxTime := some now, emaRate := 0 }

/-- The `while processed < 10` drain loop of `RandomApp._poll_inbox`:
removes up to `limit` elements from the head of the queue, stopping
early when the queue is empty.  Returns the processed batch and the
remaining queue. -/
def drainBatch {α : Type} : Nat → List α → List α × List α
  | 0, q => ([], q)
  | _ + 1, [] => ([], [])
  | n + 1, x :: xs =>
    let r := drainBatch n xs
    (x :: r.1, r.2)

/-- `RandomApp._poll_inbox`: one poll drains a batch of at most 10
messages from the inbox. -/
def pollInbox (q : List RandomValueMsg) : List RandomValueMsg × List RandomValueMsg :=
  drainBatch 10 q

/-- Reachability invariant of the controller-producer pair: the
producer's run event is set exactly in the `RUNNING` state, and in the
`STOPPING` state the exit flag is set and the run event is clear. -/
def Inv (c : Controller) : Prop :=
  (c.producer.runEvent = true ↔ c.state = State.RUNNING) ∧
  (c.state = State.STOPPING →
    c.producer.shutdownFlag = true ∧ c.producer.runEvent = false)

theorem handle_preserves_Inv (c : Controller) (e : Event) (h : Inv c) :
    Inv (c.handle e) := by
  obtain ⟨p, st⟩ := c
  obtain ⟨h1, h2⟩ := h
  cases st <;> cases e <;>
    simp_all [Inv, Controller.handle, RandomProducer.enable,
      RandomProducer.disable, RandomProducer.shutdown]

theorem applyEvents_Inv (c : Controller) (evs : List Event) (h : Inv c) :
    Inv (applyEvents c evs) := by
  induction evs generalizing c with
  | nil => exact h
  | cons e es ih => exact ih (c.handle e) (handle_preserves_Inv c e h)

theorem initController_Inv (hz t0 : ℚ) (cap : Nat) :
    Inv (initController hz t0 cap) := by
  constructor <;> simp [initController, Inv]

theorem handle_stopping (c : Controller) (e : Event)
    (h : c.state = State.STOPPING) : c.handle e = c := by
  obtain ⟨p, st⟩ := c
  cases st
  · exact absurd h (by simp)
  · exact absurd h (by simp)
  · cases e <;> rfl

/-- C1: `Controller.handle` is a total function on (state, command)
pairs that realises exactly the section 4.1 transition table — the
four acting rows plus identity on every other pair — both step by step
on arbitrary configurations and along every command sequence applied
from the initial `IDLE` configuration. -/
theorem handle_matches_spec_table :
    (∀ (c : Controller) (e : Event),
      (c.handle e).state = specTransition c.state e) ∧
    (∀ (hz t0 : ℚ) (cap : Nat) (evs : List Event),
      (applyEvents (initController hz t0 cap) evs).state
        = evs.foldl specTransition State.IDLE) := by
  have key : ∀ (c : Controller) (e : Event),
      (c.handle e).state = specTransition c.state e := by
    intro ⟨p, st⟩ e
    cases st <;> cases e <;> rfl
  refine ⟨key, ?_⟩
  have gen : ∀ (evs : List Event) (c : Controller),
      (applyEvents c evs).state = evs.foldl specTransition c.state := by
    intro evs
    induction evs with
    | nil => intro c; rfl
    | cons e es ih =>
      intro c
      have h1 : applyEvents c (e :: es) = applyEvents (c.handle e) es := rfl
      rw [h1, ih (c.handle e), key c e]
      rfl
  intro hz t0 cap evs
  exact gen evs (initController hz t0 cap)

/-- C2: Stopping is terminal.  In any configuration reached from the
initial one whose state is `STOPPING`, every further command leaves
the configuration entirely unchanged, the producer's exit flag is set,
its emission flag is clear, and its run loop exits at once emitting no
further samples, for every schedule of tick inputs. -/
theorem stopping_terminal (hz t0 : ℚ) (cap : Nat) (evs : List Event)
    (h : (applyEvents (initController hz t0 cap) evs).state = State.STOPPING) :
    (∀ e, (applyEvents (initController hz t0 cap) evs).handle e
        = applyEvents (initController hz t0 cap) evs) ∧
    (applyEvents (initController hz t0 cap) evs).producer.shutdownFlag = true ∧
    (applyEvents (initController hz t0 cap) evs).producer.runEvent = false ∧
    (∀ ts, (applyEvents (initController hz t0 cap) evs).producer.run ts
        = ((applyEvents (initController hz t0 cap) evs).producer, [])) := by
  have hinv := applyEvents_Inv (initController hz t0 cap) evs
    (initController_Inv hz t0 cap)
  obtain ⟨h1, h2⟩ := hinv
  obtain ⟨hsd, hre⟩ := h2 h
  refine ⟨?_, hsd, hre, ?_⟩
  · intro e
    exact handle_stopping _ e h
  · intro ts
    cases ts with
    | nil => rfl
    | cons t ts => simp [RandomProducer.run, hsd]

/-- C2 witness: after sending `SHUTDOWN` from the initial
configuration the state is `STOPPING`, the exit flag is set, the
emission flag is clear, a further `START` changes nothing, and a run
schedule of three ticks emits nothing. -/
theorem stopping_terminal_witness :
    (applyEvents (initController 20 0 64) [Event.SHUTDOWN]).handle Event.START
        = applyEvents (initController 20 0 64) [Event.SHUTDOWN] ∧
    (applyEvents (initController 20 0 64) [Event.SHUTDOWN]).producer.shutdownFlag
        = true ∧
    (applyEvents (initController 20 0 64) [Event.SHUTDOWN]).producer.runEvent
        = false ∧
    (applyEvents (initController 20 0 64) [Event.SHUTDOWN]).producer.run
        [⟨1, 1, 1⟩, ⟨2, 2, 2⟩, ⟨3, 3, 3⟩]
      = ((applyEvents (initController 20 0 64) [Event.SHUTDOWN]).producer, []) :=
  ⟨(stopping_terminal 20 0 64 [Event.SHUTDOWN] rfl).1 Event.START,
   (stopping_terminal 20 0 64 [Event.SHUTDOWN] rfl).2.1,
   (stopping_terminal 20 0 64 [Event.SHUTDOWN] rfl).2.2.1,
   (stopping_terminal 20 0 64 [Event.SHUTDOWN] rfl).2.2.2
     [⟨1, 1, 1⟩, ⟨2, 2, 2⟩, ⟨3, 3, 3⟩]⟩

/-- C10: along every command sequence from the initial configuration,
the producer's emission flag is set exactly when the controller state
is `RUNNING`; consequently in any reached configuration whose state is
not `RUNNING`, a producer loop iteration emits no sample. -/
theorem run_event_iff_running (hz t0 : ℚ) (cap : Nat) (evs : List Event) :
    ((applyEvents (initController hz t0 cap) evs).producer.runEvent = true
      ↔ (applyEvents (initController hz t0 cap) evs).state = State.RUNNING) ∧
    (∀ t : TickInput,
      (applyEvents (initController hz t0 cap) evs).state ≠ State.RUNNING →
      ((applyEvents (initController hz t0 cap) evs).producer.runStep t).2 = []) := by
  have hinv := applyEvents_Inv (initController hz t0 cap) evs
    (initController_Inv hz t0 cap)
  obtain ⟨h1, _⟩ := hinv
  refine ⟨h1, ?_⟩
  intro t hne
  have hre : (applyEvents (initController hz t0 cap) evs).producer.runEvent
      = false := by
    cases hb : (applyEvents (initController hz t0 cap) evs).producer.runEvent
    · rfl
    · exact absurd (h1.mp hb) hne
  by_cases hlt :
      t.now < (applyEvents (initController hz t0 cap) evs).producer.nextTick
  · simp [RandomProducer.runStep, hlt]
  · simp [RandomProducer.runStep, hlt, hre]

/-- C10 witness: after `START` then `STOP` the state is `IDLE`, the
emission flag is clear, and an overdue tick emits nothing. -/
theorem run_event_iff_running_witness :
    ((applyEvents (initController 20 0 64) [Event.START, Event.STOP]).producer.runEvent
        = true
      ↔ (applyEvents (initController 20 0 64) [Event.START, Event.STOP]).state
        = State.RUNNING) ∧
    ((applyEvents (initController 20 0 64) [Event.START, Event.STOP]).producer.runStep
        ⟨1, 1, 1⟩).2 = [] :=
  ⟨(run_event_iff_running 20 0 64 [Event.START, Event.STOP]).1,
   (run_event_iff_running 20 0 64 [Event.START, Event.STOP]).2 ⟨1, 1, 1⟩
     (by decide)⟩

theorem pushDropOldest_full {α : Type} (cap : Nat) (a : α) (as : List α)
    (x : α) (hfull : (a :: as).length = cap) :
    pushDropOldest cap (a :: as) x = as ++ [x] := by
  have hlen : as.length + 1 = cap := by simpa using hfull
  have h1 : ¬ as.length + 1 < cap := by omega
  have h2 : as.length < cap := by omega
  simp [pushDropOldest, put_nowait, get_nowait, h1, h2]

theorem pushDropOldest_length_le {α : Type} (cap : Nat) (q : List α) (x : α)
    (hq : q.length ≤ cap) : (pushDropOldest cap q x).length ≤ cap := by
  by_cases hlt : q.length < cap
  · simp [pushDropOldest, put_nowait, hlt]
    omega
  · have heq : q.length = cap := by omega
    cases q with
    | nil =>
      have hcap : cap = 0 := by simp at heq; omega
      subst hcap
      simp [pushDropOldest, put_nowait, get_nowait]
    | cons a as =>
      rw [pushDropOldest_full cap a as x heq]
      simp at heq ⊢
      omega

/-- C3: pushing into an Output channel that holds exactly its positive
capacity `cap` of messages removes exactly the oldest element and
appends the new one at the tail, so the result is the original list
without its head followed by the new message: the length stays `cap`,
the tail is the new message, the old head is gone whenever the
elements are pairwise distinct, and any push from a length within
capacity keeps the length within capacity. -/
theorem output_push_drop_oldest (cap : Nat) (q : List RandomValueMsg)
    (x : RandomValueMsg) (hcap : 0 < cap) (hfull : q.length = cap) :
    pushDropOldest cap q x = q.drop 1 ++ [x] ∧
    (pushDropOldest cap q x).length = cap ∧
    (pushDropOldest cap q x).getLast? = some x ∧
    (∀ h, q.head? = some h → (x :: q).Nodup → h ∉ pushDropOldest cap q x) ∧
    (∀ (q2 : List RandomValueMsg) (y : RandomValueMsg),
      q2.length ≤ cap → (pushDropOldest cap q2 y).length ≤ cap) := by
  cases q with
  | nil => simp at hfull; omega
  | cons a as =>
    have hmain := pushDropOldest_full cap a as x hfull
    have hlen : as.length + 1 = cap := by simpa using hfull
    refine ⟨by simpa using hmain, ?_, ?_, ?_, ?_⟩
    · rw [hmain]; simp; omega
    · rw [hmain]; simp
    · intro h hh hnd
      rw [hmain]
      have ha : a = h := by simpa using hh
      subst ha
      simp only [List.nodup_cons, List.mem_cons] at hnd
      obtain ⟨hx, hna, _⟩ := hnd
      simp only [List.mem_append, List.mem_singleton]
      rintro (hmem | hax)
      · exact hna hmem
      · exact hx (Or.inl hax.symm)
    · intro q2 y hq2
      exact pushDropOldest_length_le cap q2 y hq2

/-- C3 witness: a channel of capacity 3 holding three messages; the
push drops the oldest, keeps length 3, and puts the new message last. -/
theorem output_push_drop_oldest_witness :
    pushDropOldest 3 [⟨0, 0⟩, ⟨1, 1⟩, ⟨2, 2⟩] (⟨3, 3⟩ : RandomValueMsg)
      = [⟨1, 1⟩, ⟨2, 2⟩, ⟨3, 3⟩] ∧
    (pushDropOldest 3 [⟨0, 0⟩, ⟨1, 1⟩, ⟨2, 2⟩] (⟨3, 3⟩ : RandomValueMsg)).length
      = 3 ∧
    (⟨0, 0⟩ : RandomValueMsg) ∉
      pushDropOldest 3 [⟨0, 0⟩, ⟨1, 1⟩, ⟨2, 2⟩] (⟨3, 3⟩ : RandomValueMsg) :=
  ⟨(output_push_drop_oldest 3 [⟨0, 0⟩, ⟨1, 1⟩, ⟨2, 2⟩] ⟨3, 3⟩
      (by decide) (by decide)).1,
   (output_push_drop_oldest 3 [⟨0, 0⟩, ⟨1, 1⟩, ⟨2, 2⟩] ⟨3, 3⟩
      (by decide) (by decide)).2.1,
   (output_push_drop_oldest 3 [⟨0, 0⟩, ⟨1, 1⟩, ⟨2, 2⟩] ⟨3, 3⟩
      (by decide) (by decide)).2.2.2.1 ⟨0, 0⟩ (by decide) (by decide)⟩

/-- C4: the Command channel (modelled from the spec, this placement
variant being absent from the sources) never evicts: a put below
capacity keeps every queued command and appends the new one, and a put
into a full channel returns the error to the caller instead of
dropping anything. -/
theorem command_put_no_silent_drop (cap : Nat) (q : List Event) (e : Event) :
    (q.length < cap → commandPut cap q e = Except.ok (q ++ [e])) ∧
    (cap ≤ q.length → commandPut cap q e = Except.error ()) := by
  constructor
  · intro h
    simp [commandPut, h]
  · intro h
    have hn : ¬ q.length < cap := by omega
    simp [commandPut, hn]

/-- C4 witness: a put into a channel with room appends the command; a
put into a full channel reports the error. -/
theorem command_put_no_silent_drop_witness :
    commandPut 64 [Event.START] Event.STOP
      = Except.ok [Event.START, Event.STOP] ∧
    commandPut 1 [Event.START] Event.SHUTDOWN = Except.error () :=
  ⟨(command_put_no_silent_drop 64 [Event.START] Event.STOP).1 (by decide),
   (command_put_no_silent_drop 1 [Event.START] Event.SHUTDOWN).2 (by decide)⟩

/-- C5 counterexample: the transition Idle + Start enters Running, yet
nothing is pushed into the Output channel — it is empty before and
after the transition.  The source defines no StateChanged message at
all: `RandomValueMsg` is the only message type, and the displayed
state is updated directly from the controller by `_update_controls`. -/
theorem no_state_changed_on_transition :
    (initController 20 0 64).state = State.IDLE ∧
    ((initController 20 0 64).handle Event.START).state = State.RUNNING ∧
    (initController 20 0 64).producer.outbox = [] ∧
    ((initController 20 0 64).handle Event.START).producer.outbox = [] := by
  exact ⟨rfl, rfl, rfl, rfl⟩

/-- C5 amended: `Controller.handle` never pushes any message into the
Output channel on any transition; samples are the only messages that
ever enter it, and the displayed state is read directly from the
controller rather than from channel messages. -/
theorem handle_preserves_outbox (c : Controller) (e : Event) :
    (c.handle e).producer.outbox = c.producer.outbox := by
  obtain ⟨p, st⟩ := c
  cases st <;> cases e <;> rfl

/-- C6 counterexample: two samples received 1e-7 apart.  The code's
EMA update divides by the clamped interval `max(Δt, 1e-6)` and yields
200000, not the 2000000 the unclamped claim formula gives. -/
theorem ema_clamps_small_dt :
    (renderValue { lastRxTime := some 0, emaRate := 0 } (1 / 10000000)).emaRate
      = 200000 ∧
    (1 - 1 / 5 : ℚ) * 0 + (1 / 5) * (1 / ((1 / 10000000 : ℚ) - 0)) = 2000000 ∧
    (200000 : ℚ) ≠ 2000000 := by
  refine ⟨?_, by norm_num, by norm_num⟩
  have hmax : max ((1 / 10000000 : ℚ) - 0) (1 / 1000000) = 1 / 1000000 := by
    rw [max_eq_right]
    norm_num
  simp only [renderValue, hmax]
  norm_num

/-- C6 amended: for every received sample after the first, the
consumer updates the EMA as `(1-α)·ema + α·(1/max(Δt, 1e-6))` with
α = 0.2, the interval clamped below at 1e-6; on the first received
sample the EMA is set to 0.  In both cases the receipt time is
recorded. -/
theorem ema_update (st : RenderState) (now : ℚ) :
    (∀ last, st.lastRxTime = some last →
      (renderValue st now).emaRate
        = (1 - 1 / 5) * st.emaRate
          + (1 / 5) * (1 / max (now - last) (1 / 1000000))) ∧
    (st.lastRxTime = none → (renderValue st now).emaRate = 0) ∧
    (renderValue st now).lastRxTime = some now := by
  obtain ⟨lrx, ema⟩ := st
  cases lrx with
  | none =>
    refine ⟨?_, fun _ => rfl, rfl⟩
    intro last hlast
    simp at hlast
  | some t0 =>
    refine ⟨?_, ?_, rfl⟩
    · intro last hlast
      have ht : t0 = last := by simpa using hlast
      subst ht
      rfl
    · intro hnone
      simp at hnone

/-- C6 witness: a second sample 1/10 after the first, with a previous
EMA of 10, follows the clamped formula; a first sample seeds the EMA
to 0. -/
theorem ema_update_witness :
    (renderValue { lastRxTime := some 0, emaRate := 10 } (1 / 10)).emaRate
      = (1 - 1 / 5) * 10
        + (1 / 5) * (1 / max ((1 / 10 : ℚ) - 0) (1 / 1000000)) ∧
    (renderValue { lastRxTime := none, emaRate := 10 } (1 / 10)).emaRate = 0 :=
  ⟨(ema_update { lastRxTime := some 0, emaRate := 10 } (1 / 10)).1 0 rfl,
   (ema_update { lastRxTime := none, emaRate := 10 } (1 / 10)).2.1 rfl⟩

/-- C7: in any configuration reached from the initial one whose state
is `RUNNING`, a producer loop iteration whose deadline has passed
emits exactly one sample, pushes exactly that message into the Output
channel by the drop-oldest push, and advances the deadline to exactly
its previous value plus one period. -/
theorem running_tick_emits_one (hz t0 : ℚ) (cap : Nat) (evs : List Event)
    (t : TickInput)
    (hrun : (applyEvents (initController hz t0 cap) evs).state = State.RUNNING)
    (hdue : (applyEvents (initController hz t0 cap) evs).producer.nextTick
      ≤ t.now) :
    ((applyEvents (initController hz t0 cap) evs).producer.runStep t).2
      = [{ timestamp := t.ts, value := t.value }] ∧
    ((applyEvents (initController hz t0 cap) evs).producer.runStep t).1.nextTick
      = (applyEvents (initController hz t0 cap) evs).producer.nextTick
        + (applyEvents (initController hz t0 cap) evs).producer.period ∧
    ((applyEvents (initController hz t0 cap) evs).producer.runStep t).1.outbox
      = pushDropOldest (applyEvents (initController hz t0 cap) evs).producer.cap
          (applyEvents (initController hz t0 cap) evs).producer.outbox
          { timestamp := t.ts, value := t.value } := by
  have hinv := applyEvents_Inv (initController hz t0 cap) evs
    (initController_Inv hz t0 cap)
  have hre : (applyEvents (initController hz t0 cap) evs).producer.runEvent
      = true := hinv.1.mpr hrun
  have hnlt : ¬ t.now < (applyEvents (initController hz t0 cap) evs).producer.nextTick :=
    not_lt.mpr hdue
  refine ⟨?_, ?_, ?_⟩ <;> simp [RandomProducer.runStep, hnlt, hre]

/-- C7 witness: start from Idle, send Start, then run one overdue tick
(deadline 0, now 1) with hz = 20: exactly the one sample
(timestamp 2, value 1/2) is emitted and pushed, and the deadline
becomes 0 + 1/20. -/
theorem running_tick_emits_one_witness :
    ((applyEvents (initController 20 0 64) [Event.START]).producer.runStep
        ⟨1, 2, 1 / 2⟩).2 = [{ timestamp := 2, value := 1 / 2 }] ∧
    ((applyEvents (initController 20 0 64) [Event.START]).producer.runStep
        ⟨1, 2, 1 / 2⟩).1.nextTick
      = (applyEvents (initController 20 0 64) [Event.START]).producer.nextTick
        + (applyEvents (initController 20 0 64) [Event.START]).producer.period ∧
    ((applyEvents (initController 20 0 64) [Event.START]).producer.runStep
        ⟨1, 2, 1 / 2⟩).1.outbox
      = pushDropOldest
          (applyEvents (initController 20 0 64) [Event.START]).producer.cap
          (applyEvents (initController 20 0 64) [Event.START]).producer.outbox
          { timestamp := 2, value := 1 / 2 } :=
  running_tick_emits_one 20 0 64 [Event.START] ⟨1, 2, 1 / 2⟩ rfl (by decide)

/-- C8: the constructed sample period `1 / max(hz, 1e-6)` is positive
for every configured rate, including zero and negative rates; the
clamped divisor is never zero, and for every rate at or above the
clamp the period is exactly `1 / hz`. -/
theorem period_positive (hz : ℚ) :
    0 < mkPeriod hz ∧
    max hz (1 / 1000000 : ℚ) ≠ 0 ∧
    ((1 / 1000000 : ℚ) ≤ hz → mkPeriod hz = 1 / hz) := by
  have hpos : (0 : ℚ) < max hz (1 / 1000000) :=
    lt_of_lt_of_le (by norm_num) (le_max_right _ _)
  refine ⟨?_, ne_of_gt hpos, ?_⟩
  · have h1 : (0 : ℚ) < 1 / max hz (1 / 1000000) := by positivity
    rw [mkPeriod]
    exact h1
  · intro h
    rw [mkPeriod, max_eq_left (le_trans (by norm_num) h)]

/-- C8 witness: the source rate 20 Hz gives the positive period 1/20,
and even a negative configured rate gives a positive period. -/
theorem period_positive_witness :
    0 < mkPeriod 20 ∧ mkPeriod 20 = 1 / 20 ∧ 0 < mkPeriod (-5) :=
  ⟨(period_positive 20).1, (period_positive 20).2.2 (by norm_num),
   (period_positive (-5)).1⟩

theorem drainBatch_eq {α : Type} (n : Nat) (q : List α) :
    drainBatch n q = (q.take n, q.drop n) := by
  induction n generalizing q with
  | zero => simp [drainBatch]
  | succ n ih =>
    cases q with
    | nil => simp [drainBatch]
    | cons x xs => simp [drainBatch, ih]

/-- C9: one consumer poll removes exactly the first
`min 10 (length)` messages — never more than 10 — leaving the rest in
order, and a poll of an empty channel processes nothing and ends at
once. -/
theorem poll_bounded_batch (q : List RandomValueMsg) :
    (pollInbox q).1 = q.take 10 ∧
    (pollInbox q).2 = q.drop 10 ∧
    (pollInbox q).1.length ≤ 10 ∧
    pollInbox [] = ([], []) := by
  have h := drainBatch_eq 10 q
  refine ⟨?_, ?_, ?_, rfl⟩
  · simp [pollInbox, h]
  · simp [pollInbox, h]
  · simp [pollInbox, h]

end EDSM
